import Mathlib

/-!
# Verification of the calendar-feed builder (`build_calendars.py`)

A shallow embedding of the transformation core of `build_calendars.py`:
scalar normalizers (`_to_date`, `_to_time`, `truthy`, `ical_escape`,
`slugify`), the RFC5545 line folder (`fold_ical_line`), identifier
synthesis (`make_uid`) and the per-group renderer
(`build_ics_for_group`), together with proofs about the claims of the
specification.

Conventions of the embedding:
* Python byte strings are `List Nat` (each element an octet value).
* Python `str` values are Lean `String`s; `s.encode("utf-8")` is
  `bytesOf s` below.
* Cell values coming from the spreadsheet are `Option String`: `none` is
  a missing column (pandas returns the `get` default).  The CSV loader
  itself is outside the source; note that a *blank* cell surfaces to
  this code as a float NaN whose `str()` is the text `"nan"`, which is
  representable here as the value `some "nan"`.
* Character-level operations (`lower`, `isalnum`, `strip`) are modelled
  on their ASCII behaviour; the inputs of interest are ASCII.
-/

namespace Cal

/-! ## UTF-8 encoding of strings (model of `str.encode("utf-8")`) -/

/-- UTF-8 encoding of a single character (standard 1-4 byte forms). -/
def utf8Bytes (c : Char) : List Nat :=
  let n := c.toNat
  if n < 0x80 then [n]
  else if n < 0x800 then [0xC0 + n / 0x40, 0x80 + n % 0x40]
  else if n < 0x10000 then
    [0xE0 + n / 0x1000, 0x80 + (n / 0x40) % 0x40, 0x80 + n % 0x40]
  else
    [0xF0 + n / 0x40000, 0x80 + (n / 0x1000) % 0x40,
     0x80 + (n / 0x40) % 0x40, 0x80 + n % 0x40]

/-- UTF-8 encoding of a character sequence. -/
def enc (cs : List Char) : List Nat := (cs.map utf8Bytes).flatten

/-- `s.encode("utf-8")` for a Python `str`. -/
def bytesOf (s : String) : List Nat := enc s.data

/-! ## `fold_ical_line` (RFC5545 folding), byte level

The Python function encodes the line to UTF-8, repeatedly cuts at most
75 octets (backing the cut point off while it would land on a UTF-8
continuation byte), interleaves `" "` continuation markers, and merges
each marker with the following chunk. -/

/-- `b[cut] & 0xC0 == 0x80`: is the byte a UTF-8 continuation byte? -/
def isCont (x : Nat) : Bool := x &&& 0xC0 == 0x80

/-- The inner `while cut > 0 and (b[cut] & 0xC0) == 0x80: cut -= 1` loop:
starting candidate cut position `k`, move left while on a continuation
byte. -/
def backoff (b : List Nat) : Nat → Nat
  | 0 => 0
  | k + 1 => if isCont (b.getD (k + 1) 0) then backoff b k else k + 1

/-- The chunking loop of `fold_ical_line`, with explicit fuel so that it
is structurally recursive (each iteration removes at least one byte, so
`b.length` fuel always suffices; see `foldOut`).  The produced `out`
list has the `" "` continuation markers represented as the byte chunk
`[32]`.  If the backed-off cut reaches 0 the Python loop would never
terminate (it re-appends an empty prefix forever); that needs 75
consecutive continuation bytes and is unreachable for UTF-8 input, and
this model returns the remaining bytes whole in that case. -/
def foldOutF (limit : Nat) : Nat → List Nat → List (List Nat)
  | 0, b => if b.isEmpty then [] else [b]
  | fuel + 1, b =>
    if limit < b.length then
      let cut := backoff b limit
      if cut = 0 then [b]
      else b.take cut :: [32] :: foldOutF limit fuel (b.drop cut)
    else if b.isEmpty then [] else [b]

/-- The chunking loop of `fold_ical_line`. -/
def foldOut (limit : Nat) (b : List Nat) : List (List Nat) :=
  foldOutF limit b.length b

/-- The merging pass of `fold_ical_line`: a `" "` marker (`[32]`) is
prepended to the chunk that follows it. -/
def mergeFold : List (List Nat) → List (List Nat)
  | [] => []
  | [x] => [x]
  | x :: y :: rest =>
    if x = [32] then (32 :: y) :: mergeFold rest
    else x :: mergeFold (y :: rest)

/-- `fold_ical_line(line)` with the default `limit = 75`, at byte level:
the list of physical lines (octet sequences) the property line is
rendered as. -/
def fold_ical_line (line : String) : List (List Nat) :=
  mergeFold (foldOut 75 (bytesOf line))

/-- Unfolding: keep the first physical line, strip the single leading
continuation octet from every later one, and concatenate. -/
def unfoldPieces : List (List Nat) → List Nat
  | [] => []
  | c :: cs => c ++ (cs.map (·.drop 1)).flatten

/-! ## `ical_escape`

The source chains four `str.replace` calls (backslash, comma, semicolon,
newline, in that order).  Each `replace` has a single-character search
string, so it is exactly a character-wise flat-map. -/

/-- `str.replace(old, new)` for a single-character `old`. -/
def replace1 (old : Char) (new : List Char) (l : List Char) : List Char :=
  (l.map fun c => if c = old then new else [c]).flatten

/-- The four chained replacements of `ical_escape`, on character lists. -/
def escapeChars (l : List Char) : List Char :=
  replace1 '\n' ['\\', 'n']
    (replace1 ';' ['\\', ';']
      (replace1 ',' ['\\', ',']
        (replace1 '\\' ['\\', '\\'] l)))

/-- `ical_escape(s)`. -/
def ical_escape (s : String) : String := String.mk (escapeChars s.data)

/-- The inverse unescape operation of RFC5545 text escaping: a backslash
followed by `n` decodes to a newline, a backslash followed by any other
character decodes to that character. -/
def unescapeChars : List Char → List Char
  | [] => []
  | c :: rest =>
    if c = '\\' then
      match rest with
      | [] => ['\\']
      | c2 :: rest2 => (if c2 = 'n' then '\n' else c2) :: unescapeChars rest2
    else c :: unescapeChars rest

/-- String-level unescape. -/
def ical_unescape (s : String) : String := String.mk (unescapeChars s.data)

/-! ## `slugify` -/

/-- Python `str.strip(chars)` restricted to one strip character. -/
def stripChar (ch : Char) (l : List Char) : List Char :=
  ((l.dropWhile (· = ch)).reverse.dropWhile (· = ch)).reverse

/-- `slugify(s)`: per character, lowercase alphanumerics and a `"-"` for
everything else, then strip `"-"` from both ends, with `"general"` as
the fallback for an empty result.  (`isalnum`/`lower` are modelled on
ASCII characters.) -/
def slugify (s : String) : String :=
  let joined := s.data.map fun ch => if ch.isAlphanum then ch.toLower else '-'
  let stripped := stripChar '-' joined
  if stripped = [] then "general" else String.mk stripped

/-- The claim's reading of the slug mapping: every *maximal run* of
non-alphanumeric characters collapses to a single separator.  The flag
records whether the scanner is inside such a run. -/
def collapseAux (inRun : Bool) : List Char → List Char
  | [] => []
  | c :: rest =>
    if c.isAlphanum then c.toLower :: collapseAux false rest
    else if inRun then collapseAux true rest
    else '-' :: collapseAux true rest

def collapseRuns (l : List Char) : List Char := collapseAux false l

/-- Claimed slug mapping (C6): lowercase, collapse runs, trim, fallback.
Stated from the spec's words, for comparison with `slugify`. -/
def slugifyClaimed (s : String) : String :=
  let stripped := stripChar '-' (collapseRuns s.data)
  if stripped = [] then "general" else String.mk stripped

/-- The amended slug mapping: identical to the claim except that *each*
non-alphanumeric character yields its own separator (runs are kept). -/
def slugChar (ch : Char) : Char := if ch.isAlphanum then ch.toLower else '-'

/-- Amended slug mapping, written from the amended claim's words. -/
def slugifyAmended (s : String) : String :=
  let stripped := stripChar '-' (s.data.map slugChar)
  if stripped = [] then "general" else String.mk stripped

/-! ## Dates and times

`datetime.date` / `datetime.time` values, restricted to the fields the
source uses.  `datetime.time` microseconds are elided: every value the
embedded code produces has microsecond 0 (the `%H:%M`/`%H:%M:%S`
formats carry none and the other paths `replace(microsecond=0)`). -/

structure Date where
  year : Nat
  month : Nat
  day : Nat
deriving DecidableEq, Repr

structure Time where
  hour : Nat
  minute : Nat
  second : Nat
deriving DecidableEq, Repr

def isLeap (y : Nat) : Bool := y % 4 = 0 && (y % 100 ≠ 0 || y % 400 = 0)

def daysInMonth (y m : Nat) : Nat :=
  if m = 2 then (if isLeap y then 29 else 28)
  else if m = 4 || m = 6 || m = 9 || m = 11 then 30
  else 31

/-- `datetime(year, month, day)` construction validation: the
constructor raises `ValueError` outside these ranges, which every call
site catches, so parsing yields `none` there. -/
def mkValidDate (y m d : Nat) : Option Date :=
  if 1 ≤ y ∧ y ≤ 9999 ∧ 1 ≤ m ∧ m ≤ 12 ∧ 1 ≤ d ∧ d ≤ daysInMonth y m then
    some ⟨y, m, d⟩
  else none

/-- `d + timedelta(days=1)`. -/
def addOneDay (d : Date) : Date :=
  if d.day < daysInMonth d.year d.month then ⟨d.year, d.month, d.day + 1⟩
  else if d.month < 12 then ⟨d.year, d.month + 1, 1⟩
  else ⟨d.year + 1, 1, 1⟩

/-! ### Parsing helpers (models of `strptime` / `fromisoformat`)

`datetime.strptime` matches a format against the whole string: each
`%`-directive is a digit-group of bounded width (`%Y` exactly four
digits, `%m`/`%d`/`%H`/`%M`/`%S` one or two digits) and the resulting
fields are validated by the `datetime`/`time` constructor; any failure
raises `ValueError`, which the callers catch and treat as
"try the next format". -/

/-- Python `str.strip()` (ASCII whitespace). -/
def pyStrip (s : String) : List Char :=
  ((s.data.dropWhile Char.isWhitespace).reverse.dropWhile Char.isWhitespace).reverse

def digitsToNat (l : List Char) : Nat :=
  l.foldl (fun a c => 10 * a + (c.toNat - 48)) 0

def spanDigits (l : List Char) : List Char × List Char :=
  (l.takeWhile Char.isDigit, l.dropWhile Char.isDigit)

/-- A run of exactly `n` digits. -/
def takeDigitsExact (n : Nat) (l : List Char) : Option (Nat × List Char) :=
  let (ds, rest) := spanDigits l
  if ds.length = n then some (digitsToNat ds, rest) else none

/-- A run of one or two digits. -/
def takeDigits12 (l : List Char) : Option (Nat × List Char) :=
  let (ds, rest) := spanDigits l
  if 1 ≤ ds.length ∧ ds.length ≤ 2 then some (digitsToNat ds, rest) else none

def expectChar (c : Char) : List Char → Option (List Char)
  | x :: rest => if x = c then some rest else none
  | [] => none

/-- `datetime.strptime(s, "%Y-%m-%d")`, including constructor validation. -/
def parseYMD (l : List Char) : Option Date := do
  let (y, r1) ← takeDigitsExact 4 l
  let r2 ← expectChar '-' r1
  let (m, r3) ← takeDigits12 r2
  let r4 ← expectChar '-' r3
  let (d, r5) ← takeDigits12 r4
  if r5 = [] then mkValidDate y m d else none

/-- `datetime.strptime(s, "%d/%m/%Y")`. -/
def parseDMY (l : List Char) : Option Date := do
  let (d, r1) ← takeDigits12 l
  let r2 ← expectChar '/' r1
  let (m, r3) ← takeDigits12 r2
  let r4 ← expectChar '/' r3
  let (y, r5) ← takeDigitsExact 4 r4
  if r5 = [] then mkValidDate y m d else none

/-- `datetime.strptime(s, "%m/%d/%Y")`. -/
def parseMDY (l : List Char) : Option Date := do
  let (m, r1) ← takeDigits12 l
  let r2 ← expectChar '/' r1
  let (d, r3) ← takeDigits12 r2
  let r4 ← expectChar '/' r3
  let (y, r5) ← takeDigitsExact 4 r4
  if r5 = [] then mkValidDate y m d else none

/-- `datetime.strptime(s, "%H:%M")`: one or two digit fields, value
ranges enforced by the directive patterns and the `time` constructor. -/
def parseHM (l : List Char) : Option Time := do
  let (h, r1) ← takeDigits12 l
  let r2 ← expectChar ':' r1
  let (m, r3) ← takeDigits12 r2
  if r3 = [] ∧ h ≤ 23 ∧ m ≤ 59 then some ⟨h, m, 0⟩ else none

/-- `datetime.strptime(s, "%H:%M:%S")`.  Seconds are *not* truncated on
this path in the source.  (The `%S` pattern also admits the leap-second
values 60 and 61, but the `time` constructor then raises, which the
caller treats the same as a non-match, so requiring `s ≤ 59` is the net
behaviour.) -/
def parseHMS (l : List Char) : Option Time := do
  let (h, r1) ← takeDigits12 l
  let r2 ← expectChar ':' r1
  let (m, r3) ← takeDigits12 r2
  let r4 ← expectChar ':' r3
  let (s, r5) ← takeDigits12 r4
  if r5 = [] ∧ h ≤ 23 ∧ m ≤ 59 ∧ s ≤ 59 then some ⟨h, m, s⟩ else none

/-! `datetime.fromisoformat` (the generic fallback parser).  Modelled
from CPython 3.11's documented grammar for the common forms:
`YYYY-MM-DD` or `YYYYMMDD` dates, optionally followed by any single
separator character and a time `HH[:MM[:SS[.ffffff]]]` (or the compact
`HHMM[SS[.ffffff]]`), optionally followed by an offset (`Z`/`z` or
`±HH:MM[:SS]`, also accepted without colons).  Week-number and
ordinal-day dates are not modelled. -/

def isoFrac : List Char → Option (List Char)
  | c :: rest =>
    if c = '.' ∨ c = ',' then
      let (ds, r) := spanDigits rest
      if 1 ≤ ds.length then some r else none
    else none
  | [] => none

/-- Optional fractional seconds. -/
def isoMaybeFrac (l : List Char) : Option (List Char) :=
  match isoFrac l with
  | some r => some r
  | none => if l.head? = some '.' ∨ l.head? = some ',' then none else some l

/-- The trailing UTC-offset part of an ISO time, or the end of input. -/
def isoOffset (l : List Char) : Option Unit :=
  match l with
  | [] => some ()
  | ['Z'] => some ()
  | ['z'] => some ()
  | c :: rest =>
    if c = '+' ∨ c = '-' then do
      let (oh, r1) ← takeDigitsExact 2 rest
      let r2 := (expectChar ':' r1).getD r1
      let (om, r3) ← takeDigitsExact 2 r2
      let r4 := (expectChar ':' r3).getD r3
      let r5 ← if r4 = r3 then pure r4 else do
        let (os, r) ← takeDigitsExact 2 r4
        if os ≤ 59 then pure r else none
      let r6 ← isoMaybeFrac r5
      if r6 = [] ∧ oh ≤ 23 ∧ om ≤ 59 then some () else none
    else none

/-- The time-of-day part of an ISO datetime (after the separator). -/
def isoTime (l : List Char) : Option Time := do
  let (h, r1) ← takeDigitsExact 2 l
  if h ≤ 23 then
    match expectChar ':' r1 with
    | some r2 => do
      let (m, r3) ← takeDigitsExact 2 r2
      if m ≤ 59 then
        match expectChar ':' r3 with
        | some r4 => do
          let (s, r5) ← takeDigitsExact 2 r4
          let r6 ← isoMaybeFrac r5
          let () ← isoOffset r6
          if s ≤ 59 then some ⟨h, m, s⟩ else none
        | none => do
          let () ← isoOffset r3
          some ⟨h, m, 0⟩
      else none
    | none =>
      match takeDigitsExact 2 r1 with
      | some (m, r3) =>
        if m ≤ 59 then
          match takeDigitsExact 2 r3 with
          | some (s, r5) => do
            let r6 ← isoMaybeFrac r5
            let () ← isoOffset r6
            if s ≤ 59 then some ⟨h, m, s⟩ else none
          | none => do
            let () ← isoOffset r3
            some ⟨h, m, 0⟩
        else none
      | none => do
        let () ← isoOffset r1
        some ⟨h, 0, 0⟩
  else none

/-- The date part of an ISO string: `YYYY-MM-DD` or `YYYYMMDD`. -/
def isoDatePart (l : List Char) : Option (Date × List Char) :=
  match l with
  | a :: b :: c :: d :: '-' :: e :: f :: '-' :: g :: h :: rest =>
    if [a, b, c, d, e, f, g, h].all Char.isDigit then
      (mkValidDate (digitsToNat [a, b, c, d]) (digitsToNat [e, f])
        (digitsToNat [g, h])).map (·, rest)
    else none
  | a :: b :: c :: d :: e :: f :: g :: h :: rest =>
    if [a, b, c, d, e, f, g, h].all Char.isDigit then
      (mkValidDate (digitsToNat [a, b, c, d]) (digitsToNat [e, f])
        (digitsToNat [g, h])).map (·, rest)
    else none
  | _ => none

/-- `datetime.fromisoformat(s)`, as date and time fields. -/
def pyFromiso (l : List Char) : Option (Date × Time) := do
  let (dt, rest) ← isoDatePart l
  match rest with
  | [] => some (dt, ⟨0, 0, 0⟩)
  | _sep :: timepart => (isoTime timepart).map (dt, ·)

/-! ### `_to_date`, `_to_time`, `parse_local_datetime`, `truthy`

Cell values are `Option String` (see the header comment); the
`isinstance(val, datetime/date/time)` branches of the source apply to
non-string cell objects which do not occur for CSV text cells and are
not modelled. -/

/-- `_to_date(val)`. -/
def _to_date (val : Option String) : Option Date :=
  match val with
  | none => none
  | some v =>
    if v = "" then none
    else
      let s := pyStrip v
      (parseYMD s).orElse fun () =>
      (parseDMY s).orElse fun () =>
      (parseMDY s).orElse fun () =>
      (pyFromiso s).map (·.1)

/-- `_to_time(val)`.  Note the `%H:%M:%S` branch returns the parsed
time unchanged; only the `fromisoformat` fallback (and the
non-string branches) truncate seconds. -/
def _to_time (val : Option String) : Option Time :=
  match val with
  | none => none
  | some v =>
    if v = "" then none
    else
      let s := pyStrip v
      (parseHM s).orElse fun () =>
      (parseHMS s).orElse fun () =>
      (pyFromiso s).map fun p => ⟨p.2.hour, p.2.minute, 0⟩

/-- A local date-time carrying its named zone, as built by
`parse_local_datetime` (`datetime(d.year, d.month, d.day, t.hour,
t.minute, 0, tzinfo=tz)`). -/
structure LocalDT where
  date : Date
  time : Time
  tzid : String
deriving DecidableEq, Repr

/-- `parse_local_datetime(d_val, t_val, tzid)`.  `datetime.time` values
are always truthy in Python 3, so `_to_time(t_val) or time(0, 0, 0)`
is exactly "default to midnight when parsing failed". -/
def parse_local_datetime (d_val : Option String) (t_val : Option String)
    (tzid : String) : Option LocalDT :=
  match _to_date d_val with
  | none => none
  | some d =>
    let t := (_to_time t_val).getD ⟨0, 0, 0⟩
    some ⟨d, ⟨t.hour, t.minute, 0⟩, tzid⟩

/-- Python `str.lower()` (ASCII). -/
def pyLower (s : String) : String := String.mk (s.data.map Char.toLower)

/-- `truthy(val)`. -/
def truthy (val : Option String) : Bool :=
  match val with
  | none => false
  | some v =>
    ["true", "yes", "y", "1", "transparent", "free"].contains
      (pyLower (String.mk (pyStrip v)))

/-! ### Formatting (`fmt_date`, `fmt_utc`)

`fmt_utc` converts the zone-aware local datetime to UTC before
formatting.  The zone database lookup is modelled for the single region
the source configures (`Australia/Sydney`: AEDT, UTC+11, from the first
Sunday of October to the first Sunday of April at the 02:00/03:00 wall
times, AEST, UTC+10, otherwise; the one-hour transition folds
themselves are not modelled).  No claim depends on the offset values.
Calendar arithmetic uses the standard days-from-civil bijection. -/

/-- Zero-padded decimal rendering (`%Y`, `%m`, `%d`, `%H`, `%M`, `%S`). -/
def padNum (w n : Nat) : String :=
  let s := toString n
  String.mk (List.replicate (w - s.length) '0' ++ s.data)

/-- `d.strftime("%Y%m%d")`. -/
def fmt_date (d : Date) : String :=
  padNum 4 d.year ++ padNum 2 d.month ++ padNum 2 d.day

/-- Days since 0000-03-01 (proleptic Gregorian, March-based). -/
def rataDie (dt : Date) : Nat :=
  let y := if dt.month ≤ 2 then dt.year - 1 else dt.year
  let mp := if 2 < dt.month then dt.month - 3 else dt.month + 9
  let doy := (153 * mp + 2) / 5 + dt.day - 1
  y * 365 + y / 4 - y / 100 + y / 400 + doy

/-- Inverse of `rataDie`. -/
def dateOfRataDie (z : Nat) : Date :=
  let era := z / 146097
  let doe := z % 146097
  let yoe := (doe - doe / 1460 + doe / 36524 - doe / 146097) / 365
  let y := yoe + era * 400
  let doy := doe - (365 * yoe + yoe / 4 - yoe / 100)
  let mp := (5 * doy + 2) / 153
  let d := doy - (153 * mp + 2) / 5 + 1
  let m := if mp < 10 then mp + 3 else mp - 9
  ⟨if m ≤ 2 then y + 1 else y, m, d⟩

/-- Python `date.weekday()`: Monday is 0, Sunday is 6. -/
def pyWeekday (d : Date) : Nat := (rataDie d + 2) % 7

/-- Day of month of the first Sunday of the given month. -/
def firstSundayDay (y m : Nat) : Nat :=
  (13 - pyWeekday ⟨y, m, 1⟩) % 7 + 1

/-- Is the Sydney wall-clock instant inside daylight-saving time? -/
def sydneyIsDST (d : Date) (t : Time) : Bool :=
  let fsApr := firstSundayDay d.year 4
  let fsOct := firstSundayDay d.year 10
  if d.month < 4 then true
  else if d.month = 4 then
    if d.day < fsApr then true
    else if d.day = fsApr then t.hour < 3
    else false
  else if d.month < 10 then false
  else if d.month = 10 then
    if d.day < fsOct then false
    else if d.day = fsOct then 3 ≤ t.hour
    else true
  else true

/-- Minutes east of UTC for the modelled zone table. -/
def tzOffsetMinutes (tzid : String) (d : Date) (t : Time) : Nat :=
  if tzid = "Australia/Sydney" then (if sydneyIsDST d t then 660 else 600)
  else 0

/-- `dt.astimezone(timezone.utc).strftime("%Y%m%dT%H%M%SZ")`. -/
def fmt_utc (dt : LocalDT) : String :=
  let total := rataDie dt.date * 1440 + dt.time.hour * 60 + dt.time.minute
  let utc := total - tzOffsetMinutes dt.tzid dt.date dt.time
  let d := dateOfRataDie (utc / 1440)
  let rem := utc % 1440
  padNum 4 d.year ++ padNum 2 d.month ++ padNum 2 d.day ++ "T" ++
    padNum 2 (rem / 60) ++ padNum 2 (rem % 60) ++ padNum 2 dt.time.second ++ "Z"

/-! ### `make_uid` (SHA-1 digest, hex-truncated) -/

/-- Left-rotation of a 32-bit word. -/
def rotl32 (x s : Nat) : Nat := (x <<< s + x >>> (32 - s)) % 4294967296

/-- Bitwise complement of a 32-bit word. -/
def not32 (x : Nat) : Nat := x ^^^ 4294967295

/-- SHA-1 padding: a `0x80` byte, zeros to 56 mod 64, then the bit
length as eight big-endian bytes. -/
def sha1pad (msg : List Nat) : List Nat :=
  let ml := msg.length * 8
  let k := (120 - (msg.length + 1) % 64) % 64
  msg ++ [0x80] ++ List.replicate k 0 ++
    [ml >>> 56 % 256, ml >>> 48 % 256, ml >>> 40 % 256, ml >>> 32 % 256,
     ml >>> 24 % 256, ml >>> 16 % 256, ml >>> 8 % 256, ml % 256]

/-- Split into 64-byte blocks. -/
def chunk64 : List Nat → List (List Nat)
  | [] => []
  | a :: rest => (a :: rest).take 64 :: chunk64 ((a :: rest).drop 64)
termination_by l => l.length
decreasing_by
  simp only [List.length_drop, List.length_cons]
  omega

/-- Big-endian 32-bit words from bytes. -/
def words32 : List Nat → List Nat
  | a :: b :: c :: d :: rest =>
    (a * 16777216 + b * 65536 + c * 256 + d) :: words32 rest
  | _ => []

/-- Message-schedule extension: prepend `n` new words to the reversed
word list. -/
def sha1Extend : Nat → List Nat → List Nat
  | 0, acc => acc
  | n + 1, acc =>
    sha1Extend n
      (rotl32 (((acc.getD 2 0) ^^^ (acc.getD 7 0)) ^^^
        ((acc.getD 13 0) ^^^ (acc.getD 15 0))) 1 :: acc)

/-- One SHA-1 round. -/
def sha1Round (i : Nat) (st : Nat × Nat × Nat × Nat × Nat) (w : Nat) :
    Nat × Nat × Nat × Nat × Nat :=
  let (a, b, c, d, e) := st
  let f := if i < 20 then (b &&& c) ||| (not32 b &&& d)
    else if i < 40 then (b ^^^ c) ^^^ d
    else if i < 60 then ((b &&& c) ||| (b &&& d)) ||| (c &&& d)
    else (b ^^^ c) ^^^ d
  let k := if i < 20 then 0x5A827999
    else if i < 40 then 0x6ED9EBA1
    else if i < 60 then 0x8F1BBCDC
    else 0xCA62C1D6
  let temp := (rotl32 a 5 + f + e + k + w) % 4294967296
  (temp, a, rotl32 b 30, c, d)

/-- Process one 64-byte block. -/
def sha1Block (h : Nat × Nat × Nat × Nat × Nat) (block : List Nat) :
    Nat × Nat × Nat × Nat × Nat :=
  let w16 := words32 block
  let w80 := (sha1Extend 64 w16.reverse).reverse
  let (h0, h1, h2, h3, h4) := h
  let (a, b, c, d, e) :=
    (List.zip (List.range 80) w80).foldl (fun st p => sha1Round p.1 st p.2)
      (h0, h1, h2, h3, h4)
  ((h0 + a) % 4294967296, (h1 + b) % 4294967296, (h2 + c) % 4294967296,
   (h3 + d) % 4294967296, (h4 + e) % 4294967296)

/-- Big-endian bytes of a 32-bit word. -/
def bytes32 (x : Nat) : List Nat :=
  [x >>> 24 % 256, x >>> 16 % 256, x >>> 8 % 256, x % 256]

/-- SHA-1 digest (20 bytes) of a byte sequence. -/
def sha1 (msg : List Nat) : List Nat :=
  let (h0, h1, h2, h3, h4) :=
    (chunk64 (sha1pad msg)).foldl sha1Block
      (0x67452301, 0xEFCDAB89, 0x98BADCFE, 0x10325476, 0xC3D2E1F0)
  bytes32 h0 ++ bytes32 h1 ++ bytes32 h2 ++ bytes32 h3 ++ bytes32 h4

/-- Lowercase hex character of a value below 16. -/
def hexChar (n : Nat) : Char :=
  if n < 10 then Char.ofNat (48 + n) else Char.ofNat (87 + n)

/-- Lowercase hex rendering of a byte sequence (`hexdigest`). -/
def hexOfBytes (bs : List Nat) : List Char :=
  bs.flatMap fun b => [hexChar (b / 16), hexChar (b % 16)]

/-- `make_uid(fields)`: first 16 hex characters of the SHA-1 of the
`"|"`-joined fields, plus the fixed domain suffix. -/
def make_uid (fields : List String) : String :=
  String.mk ((hexOfBytes (sha1 (bytesOf (String.intercalate "|" fields)))).take 16)
    ++ "@github-pages"

/-! ## `build_ics_for_group`

One spreadsheet row, as the loop body reads it: each `r.get(col)` /
`r.get(col, "")` lookup of a named column.  `none` models a missing
column (the `get` default); present cells are text. -/

structure Row where
  title : Option String := none
  startDate : Option String := none
  startTime : Option String := none
  endDate : Option String := none
  endTime : Option String := none
  uid : Option String := none
  calendar : Option String := none
  location : Option String := none
  description : Option String := none
  url : Option String := none
  transparent : Option String := none

/-- `str(None)` / `str(s)` for an optional cell (used by `make_uid`,
whose `sdate` argument is the raw `r.get("Start Date")`). -/
def pyStr (o : Option String) : String :=
  match o with
  | none => "None"
  | some s => s

/-- `str(r.get("Title", "") or "").strip()`.  (`x or ""` maps the empty
string to itself, so it is the `getD ""` default.) -/
def rowTitle (r : Row) : String := String.mk (pyStrip (r.title.getD ""))

def rowUid0 (r : Row) : String := r.uid.getD ""

def rowCat (r : Row) : String := String.mk (pyStrip (r.calendar.getD ""))

/-- `r.get("Start Time") or ""`. -/
def rowStime (r : Row) : String := r.startTime.getD ""

def rowEdate (r : Row) : String := r.endDate.getD ""

def rowEtime (r : Row) : String := r.endTime.getD ""

def rowLocation (r : Row) : String := String.mk (pyStrip (r.location.getD ""))

def rowDesc (r : Row) : String := String.mk (pyStrip (r.description.getD ""))

def rowUrl (r : Row) : String := String.mk (pyStrip (r.url.getD ""))

/-- `is_all_day = (not _to_time(stime) and not _to_time(etime))`
(`time` objects are always truthy in Python 3). -/
def isAllDay (r : Row) : Bool :=
  (_to_time (some (rowStime r))).isNone && (_to_time (some (rowEtime r))).isNone

/-- The UID for the event: the explicit cell, or the synthesized one. -/
def rowUidFinal (r : Row) (cal_name : String) : String :=
  if rowUid0 r = "" then
    make_uid [rowTitle r, pyStr r.startDate, rowEdate r, rowStime r,
      rowEtime r, rowLocation r, cal_name]
  else rowUid0 r

/-- The `cats` list: category first (when non-empty), then the location
(when non-empty). -/
def catsList (r : Row) : List String :=
  (if rowCat r ≠ "" then [rowCat r] else []) ++
    (if rowLocation r ≠ "" then [rowLocation r] else [])

/-- The optional `CATEGORIES` property line. -/
def catsSegment (r : Row) : List String :=
  if catsList r ≠ [] then
    ["CATEGORIES:" ++ ical_escape (String.intercalate "," (catsList r))]
  else []

/-- The `DTSTART`/`DTEND` property lines: the all-day branch renders
exclusive date ranges, the timed branch renders UTC instants, and the
timed branch with an unresolvable instant renders nothing (the loop
closes the block and continues). -/
def dateSegment (tzid : String) (r : Row) (start_d : Date) : List String :=
  if isAllDay r then
    let end_d := (_to_date (some (rowEdate r))).getD start_d
    ["DTSTART;VALUE=DATE:" ++ fmt_date start_d,
     "DTEND;VALUE=DATE:" ++ fmt_date (addOneDay end_d)]
  else
    match parse_local_datetime r.startDate (some (rowStime r)) tzid,
      parse_local_datetime
        (if rowEdate r = "" then r.startDate else some (rowEdate r))
        (some (if rowEtime r ≠ "" then rowEtime r
          else if rowStime r ≠ "" then rowStime r else "00:00")) tzid with
    | some ds, some de => ["DTSTART:" ++ fmt_utc ds, "DTEND:" ++ fmt_utc de]
    | _, _ => []

/-- The property strings one loop iteration passes to `add_prop`, in
order.  A row with an empty title or an unparseable start date
contributes nothing (`continue` before any output). -/
def eventProps (tzid cal_name now_utc : String) (r : Row) : List String :=
  if rowTitle r = "" then []
  else
    match _to_date r.startDate with
    | none => []
    | some start_d =>
      ["BEGIN:VEVENT",
       "UID:" ++ rowUidFinal r cal_name,
       "DTSTAMP:" ++ now_utc,
       "SUMMARY:" ++ ical_escape (rowTitle r),
       "TRANSP:" ++ if truthy r.transparent then "TRANSPARENT" else "OPAQUE"]
      ++ (if rowLocation r ≠ "" then
            ["LOCATION:" ++ ical_escape (rowLocation r)] else [])
      ++ (if rowDesc r ≠ "" then
            ["DESCRIPTION:" ++ ical_escape (rowDesc r)] else [])
      ++ (if rowUrl r ≠ "" then ["URL:" ++ ical_escape (rowUrl r)] else [])
      ++ catsSegment r
      ++ dateSegment tzid r start_d
      ++ ["END:VEVENT"]

/-- The physical lines (byte sequences) one row contributes:
`add_prop` folds each property. -/
def eventLines (tzid cal_name now_utc : String) (r : Row) : List (List Nat) :=
  (eventProps tzid cal_name now_utc r).flatMap fold_ical_line

/-- The calendar-level header properties. -/
def headerProps (cal_name : String) : List String :=
  ["BEGIN:VCALENDAR",
   "PRODID:-//Dynamic Calendars//GitHub Pages//EN",
   "VERSION:2.0",
   "CALSCALE:GREGORIAN",
   "METHOD:PUBLISH",
   "X-WR-CALNAME:" ++ ical_escape cal_name,
   "X-PUBLISHED-TTL:PT12H"]

/-- All property strings of `build_ics_for_group`, in emission order.
`now_utc` is the `DTSTAMP` value captured once per render pass. -/
def docProps (tzid cal_name now_utc : String) (rows : List Row) : List String :=
  headerProps cal_name ++ rows.flatMap (eventProps tzid cal_name now_utc)
    ++ ["END:VCALENDAR"]

/-- The physical lines of the rendered document: every property folded,
in order.  These are exactly the texts between consecutive CRLF
terminators of the output. -/
def docLines (tzid cal_name now_utc : String) (rows : List Row) :
    List (List Nat) :=
  (docProps tzid cal_name now_utc rows).flatMap fold_ical_line

/-- The rendered document: `"\r\n".join(lines) + "\r\n"`, as octets. -/
def document (tzid cal_name now_utc : String) (rows : List Row) : List Nat :=
  (List.intersperse [13, 10] (docLines tzid cal_name now_utc rows)).flatten
    ++ [13, 10]

/-- A byte sequence that is the UTF-8 encoding of some character
sequence (every folded chunk of an encoded property has this shape). -/
def ValidEnc (b : List Nat) : Prop := ∃ cs : List Char, b = enc cs

/-- The character-wise effect of the four chained replacements of
`ical_escape` (used only to characterize `escapeChars`). -/
def escChar (c : Char) : List Char :=
  if c = '\\' then ['\\', '\\']
  else if c = ',' then ['\\', ',']
  else if c = ';' then ['\\', ';']
  else if c = '\n' then ['\\', 'n']
  else [c]

/-! ### Concrete rows used as test inputs -/

/-- A timed row (start time parses) whose end date is present but fails
every date parser. -/
def rowC1 : Row :=
  { title := some "Busy day", startDate := some "2025-03-10",
    startTime := some "09:00", endDate := some "not-a-date",
    uid := some "u-c1" }

/-- A row whose location cell holds the literal text `"nan"` (what a
blank spreadsheet cell's NaN stringifies to). -/
def rowC3 : Row :=
  { title := some "X", startDate := some "2025-03-10",
    location := some "nan", uid := some "u-c3" }

/-- A row with an ordinary non-empty location. -/
def rowC3w : Row :=
  { title := some "X", startDate := some "2025-03-10",
    location := some "Room 5", uid := some "w-c3" }

/-- A single-day all-day row: start date only. -/
def rowC5 : Row :=
  { title := some "Team Day", startDate := some "2025-03-10",
    uid := some "w-c5" }

/-- A row whose start date fails every date parser. -/
def rowC8 : Row := { title := some "T", startDate := some "not-a-date" }

/-- A row with both a category and a location. -/
def rowC9 : Row :=
  { title := some "Y", startDate := some "2025-03-10",
    calendar := some "Work", location := some "Room 5",
    uid := some "w-c9" }

/-- A 140-character calendar name, whose `X-WR-CALNAME` property line is
153 octets long and must be folded twice. -/
def nameC2 : String := String.mk (List.replicate 140 'a')

end Cal

namespace Cal

/-! # Theorems

## UTF-8 shape lemmas -/

set_option maxRecDepth 4096 in
theorem isCont_eq : ∀ x < 256, isCont x = decide (128 ≤ x ∧ x < 192) := by
  decide

theorem isCont_eq_false_left {x : Nat} (h : x < 128) : isCont x = false := by
  have := isCont_eq x (by omega)
  simp only [this, decide_eq_false_iff_not]
  omega

theorem isCont_eq_false_right {x : Nat} (h1 : 192 ≤ x) (h2 : x < 256) :
    isCont x = false := by
  have := isCont_eq x h2
  simp only [this, decide_eq_false_iff_not]
  omega

theorem isCont_eq_true {x : Nat} (h1 : 128 ≤ x) (h2 : x < 192) :
    isCont x = true := by
  have := isCont_eq x (by omega)
  simp only [this, decide_eq_true_eq]
  omega

/-- The head/tail byte-range shape of a UTF-8 character encoding. -/
theorem utf8Bytes_shape (c : Char) :
    ∃ hd tl, utf8Bytes c = hd :: tl ∧
      (hd < 128 ∨ (192 ≤ hd ∧ hd < 256)) ∧
      (∀ x ∈ tl, 128 ≤ x ∧ x < 192) ∧ tl.length ≤ 3 := by
  have hval : c.toNat < 1114112 := by
    have h := c.valid
    rcases h with h | h
    · exact Nat.lt_trans h (by norm_num)
    · exact h.2
  by_cases h1 : c.toNat < 128
  · exact ⟨c.toNat, [], by simp [utf8Bytes, h1], Or.inl h1, by simp, by simp⟩
  by_cases h2 : c.toNat < 2048
  · refine ⟨192 + c.toNat / 64, [128 + c.toNat % 64],
      by simp [utf8Bytes, h1, h2], Or.inr ⟨by omega, ?_⟩, ?_, by simp⟩
    · have : c.toNat / 64 < 32 := by omega
      omega
    · intro x hx
      simp only [List.mem_singleton] at hx
      subst hx
      have := Nat.mod_lt c.toNat (show 0 < 64 by omega)
      omega
  by_cases h3 : c.toNat < 65536
  · refine ⟨224 + c.toNat / 4096, [128 + c.toNat / 64 % 64, 128 + c.toNat % 64],
      by simp [utf8Bytes, h1, h2, h3], Or.inr ⟨by omega, ?_⟩, ?_, by simp⟩
    · have : c.toNat / 4096 < 16 := by omega
      omega
    · intro x hx
      simp only [List.mem_cons, List.mem_singleton] at hx
      have hm1 := Nat.mod_lt (c.toNat / 64) (show 0 < 64 by omega)
      have hm2 := Nat.mod_lt c.toNat (show 0 < 64 by omega)
      rcases hx with rfl | rfl | h
      · omega
      · omega
      · cases h
  · refine ⟨240 + c.toNat / 262144,
      [128 + c.toNat / 4096 % 64, 128 + c.toNat / 64 % 64, 128 + c.toNat % 64],
      by simp [utf8Bytes, h1, h2, h3], Or.inr ⟨by omega, ?_⟩, ?_, by simp⟩
    · have : c.toNat / 262144 < 5 := by omega
      omega
    · intro x hx
      simp only [List.mem_cons, List.mem_singleton] at hx
      have hm1 := Nat.mod_lt (c.toNat / 4096) (show 0 < 64 by omega)
      have hm2 := Nat.mod_lt (c.toNat / 64) (show 0 < 64 by omega)
      have hm3 := Nat.mod_lt c.toNat (show 0 < 64 by omega)
      rcases hx with rfl | rfl | rfl | h
      · omega
      · omega
      · omega
      · cases h

theorem utf8Bytes_ne_nil (c : Char) : utf8Bytes c ≠ [] := by
  obtain ⟨hd, tl, heq, -⟩ := utf8Bytes_shape c
  simp [heq]

theorem utf8Bytes_length_pos (c : Char) : 0 < (utf8Bytes c).length := by
  obtain ⟨hd, tl, heq, -⟩ := utf8Bytes_shape c
  simp [heq]

theorem utf8Bytes_length_le (c : Char) : (utf8Bytes c).length ≤ 4 := by
  obtain ⟨hd, tl, heq, -, -, hlen⟩ := utf8Bytes_shape c
  simp [heq]
  omega

theorem utf8Bytes_head_not_cont (c : Char) :
    isCont ((utf8Bytes c).getD 0 0) = false := by
  obtain ⟨hd, tl, heq, hhd, -⟩ := utf8Bytes_shape c
  rw [heq]
  rcases hhd with h | ⟨h1, h2⟩
  · exact isCont_eq_false_left h
  · exact isCont_eq_false_right h1 h2

theorem utf8Bytes_tail_cont (c : Char) :
    ∀ j, 1 ≤ j → j < (utf8Bytes c).length →
      isCont ((utf8Bytes c).getD j 0) = true := by
  obtain ⟨hd, tl, heq, -, htl, -⟩ := utf8Bytes_shape c
  rw [heq]
  intro j h1 h2
  obtain ⟨j', rfl⟩ := Nat.exists_eq_add_of_le h1
  simp only [List.length_cons] at h2
  have hj' : j' < tl.length := by omega
  have : (hd :: tl).getD (1 + j') 0 = tl.getD j' 0 := by
    rw [Nat.add_comm]
    rfl
  rw [this, List.getD_eq_getElem tl 0 hj']
  obtain ⟨hx1, hx2⟩ := htl _ (tl.getElem_mem hj')
  exact isCont_eq_true hx1 hx2

/-! ## `enc` lemmas -/

theorem enc_nil : enc [] = [] := rfl

theorem enc_cons (c : Char) (cs : List Char) :
    enc (c :: cs) = utf8Bytes c ++ enc cs := by
  simp [enc]

theorem enc_append (a b : List Char) : enc (a ++ b) = enc a ++ enc b := by
  simp [enc]

theorem enc_ne_nil {cs : List Char} (h : cs ≠ []) : enc cs ≠ [] := by
  cases cs with
  | nil => simp at h
  | cons c rest =>
    rw [enc_cons]
    have := utf8Bytes_ne_nil c
    intro hcontra
    rcases List.append_eq_nil.mp hcontra with ⟨h1, -⟩
    exact this h1

theorem enc_head_not_cont {cs : List Char} (h : cs ≠ []) :
    isCont ((enc cs).getD 0 0) = false := by
  cases cs with
  | nil => simp at h
  | cons c rest =>
    rw [enc_cons]
    obtain ⟨hd, tl, heq, hhd, -⟩ := utf8Bytes_shape c
    rw [heq]
    show isCont ((hd :: (tl ++ enc rest)).getD 0 0) = false
    rcases hhd with hlt | ⟨h1, h2⟩
    · exact isCont_eq_false_left hlt
    · exact isCont_eq_false_right h1 h2

/-! ## `backoff` lemmas -/

theorem backoff_le (b : List Nat) (k : Nat) : backoff b k ≤ k := by
  induction k with
  | zero => rfl
  | succ k ih =>
    unfold backoff
    split
    · omega
    · omega

theorem backoff_zero_of_cont (b : List Nat) (k : Nat)
    (h : ∀ j, 1 ≤ j → j ≤ k → isCont (b.getD j 0) = true) :
    backoff b k = 0 := by
  induction k with
  | zero => rfl
  | succ k ih =>
    unfold backoff
    rw [h (k + 1) (by omega) (by omega)]
    simp only [if_true]
    exact ih fun j h1 h2 => h j h1 (by omega)

theorem backoff_append_shift (u v : List Nat) (k : Nat)
    (h0 : isCont (v.getD 0 0) = false) :
    backoff (u ++ v) (u.length + k) = u.length + backoff v k := by
  induction k with
  | zero =>
    rw [Nat.add_zero]
    have hb0 : backoff v 0 = 0 := rfl
    rw [hb0, Nat.add_zero]
    cases hu : u.length with
    | zero =>
      have hnil : u = [] := List.length_eq_zero.mp hu
      subst hnil
      rfl
    | succ m =>
      unfold backoff
      have hidx : (u ++ v).getD (m + 1) 0 = v.getD 0 0 := by
        rw [List.getD_append_right u v 0 (m + 1) (by omega)]
        congr 1
        omega
      rw [hidx, h0]
      simp
  | succ k ih =>
    have harith : u.length + (k + 1) = (u.length + k) + 1 := by omega
    rw [harith]
    unfold backoff
    have hidx : (u ++ v).getD (u.length + k + 1) 0 = v.getD (k + 1) 0 := by
      rw [List.getD_append_right u v 0 (u.length + k + 1) (by omega)]
      congr 1
      omega
    rw [hidx]
    cases hc : isCont (v.getD (k + 1) 0) with
    | true => simp only [if_true, ih]
    | false =>
      simp only [Bool.false_eq_true, if_false]
      omega

/-- Where the backed-off cut lands on an encoded character sequence:
at the boundary of the character containing position `k`, hence at most
three bytes before `k`. -/
theorem enc_cut (cs : List Char) (k : Nat) (hk : k < (enc cs).length) :
    ∃ cs1 c cs2, cs = cs1 ++ c :: cs2 ∧
      backoff (enc cs) k = (enc cs1).length ∧
      (enc cs1).length ≤ k ∧
      k < (enc cs1).length + (utf8Bytes c).length := by
  induction cs generalizing k with
  | nil => simp [enc_nil] at hk
  | cons c rest ih =>
    rw [enc_cons] at hk ⊢
    simp only [List.length_append] at hk
    by_cases hkm : k < (utf8Bytes c).length
    · refine ⟨[], c, rest, rfl, ?_, by simp [enc_nil], by simp [enc_nil]; omega⟩
      rw [← enc_cons]
      have := backoff_zero_of_cont (enc (c :: rest)) k (fun j h1 h2 => by
        rw [enc_cons]
        have hj : j < (utf8Bytes c).length := by omega
        rw [List.getD_append _ _ _ _ hj]
        exact utf8Bytes_tail_cont c j h1 hj)
      rw [this]
      simp [enc_nil]
    · have hm : (utf8Bytes c).length ≤ k := by omega
      have hrest_ne : rest ≠ [] := by
        intro hcontra
        subst hcontra
        simp [enc_nil] at hk
        omega
      have h0 : isCont ((enc rest).getD 0 0) = false := enc_head_not_cont hrest_ne
      have hk' : k - (utf8Bytes c).length < (enc rest).length := by omega
      obtain ⟨cs1', c', cs2', hsplit, hback, hle, hlt⟩ := ih (k - (utf8Bytes c).length) hk'
      refine ⟨c :: cs1', c', cs2', by rw [hsplit, List.cons_append], ?_, ?_, ?_⟩
      · have harith : k = (utf8Bytes c).length + (k - (utf8Bytes c).length) := by omega
        rw [harith, backoff_append_shift (utf8Bytes c) (enc rest) _ h0, hback,
          enc_cons]
        simp [List.length_append]
      · rw [enc_cons]
        simp only [List.length_append]
        omega
      · rw [enc_cons]
        simp only [List.length_append]
        omega

/-! ## `foldOut` / `mergeFold` structure -/

/-- On UTF-8 input the chunking loop decomposes the bytes into chunks
interleaved with `[32]` markers: every chunk is itself a UTF-8
encoding, non-empty, at most 75 octets, and every chunk except the last
at least 72 octets (the cut backs off at most three bytes). -/
theorem foldOutF_spec (n : Nat) :
    ∀ b : List Nat, b.length ≤ n → ValidEnc b →
      ∃ ps : List (List Nat), foldOutF 75 n b = List.intersperse [32] ps ∧
        ps.flatten = b ∧
        (∀ p ∈ ps, ValidEnc p ∧ p ≠ [] ∧ p.length ≤ 75) ∧
        (∀ p ∈ ps.dropLast, 72 ≤ p.length) := by
  induction n with
  | zero =>
    intro b hlen hval
    have hb : b = [] := List.length_eq_zero.mp (by omega)
    subst hb
    exact ⟨[], by rw [foldOutF]; rfl, rfl, by simp, by simp⟩
  | succ n ih =>
    intro b hlen hval
    by_cases hbig : 75 < b.length
    · obtain ⟨cs, rfl⟩ := hval
      obtain ⟨cs1, c, cs2, hsplit, hback, hle, hlt⟩ := enc_cut cs 75 hbig
      have hmle := utf8Bytes_length_le c
      have hcut72 : 72 ≤ (enc cs1).length := by omega
      have hsplitb : enc cs = enc cs1 ++ enc (c :: cs2) := by
        rw [hsplit, enc_append]
      have htake : (enc cs).take (backoff (enc cs) 75) = enc cs1 := by
        rw [hback, hsplitb, List.take_left]
      have hdrop : (enc cs).drop (backoff (enc cs) 75) = enc (c :: cs2) := by
        rw [hback, hsplitb, List.drop_left]
      have hdroplen : (enc (c :: cs2)).length ≤ n := by
        have : (enc cs).length = (enc cs1).length + (enc (c :: cs2)).length := by
          rw [hsplitb, List.length_append]
        omega
      obtain ⟨ps', hfold', hflat', hall', hlast'⟩ :=
        ih (enc (c :: cs2)) hdroplen ⟨c :: cs2, rfl⟩
      have hps'ne : ps' ≠ [] := by
        intro hcontra
        subst hcontra
        simp only [List.flatten_nil] at hflat'
        exact enc_ne_nil (by simp) hflat'.symm
      refine ⟨enc cs1 :: ps', ?_, ?_, ?_, ?_⟩
      · rw [foldOutF]
        rw [if_pos hbig, if_neg (by omega), htake, hdrop, hfold']
        cases ps' with
        | nil => exact absurd rfl hps'ne
        | cons p0 ps'' => simp [List.intersperse]
      · rw [List.flatten_cons, hflat', hsplitb]
      · intro p hp
        rcases List.mem_cons.mp hp with rfl | hp'
        · exact ⟨⟨cs1, rfl⟩, by
            intro hcontra
            have := hcut72
            rw [hcontra] at this
            simp at this, by omega⟩
        · exact hall' p hp'
      · intro p hp
        cases ps' with
        | nil => exact absurd rfl hps'ne
        | cons p0 ps'' =>
          rw [List.dropLast_cons₂] at hp
          rcases List.mem_cons.mp hp with rfl | hp'
          · exact hcut72
          · exact hlast' p hp'
    · by_cases hnil : b = []
      · subst hnil
        exact ⟨[], by rw [foldOutF]; rfl, rfl, by simp, by simp⟩
      · refine ⟨[b], ?_, by simp, ?_, by simp⟩
        · rw [foldOutF]
          rw [if_neg (by omega)]
          simp [List.isEmpty_iff, hnil, List.intersperse]
        · intro p hp
          rcases List.mem_singleton.mp hp with rfl
          exact ⟨hval, hnil, by omega⟩

theorem foldOut_spec (b : List Nat) (hval : ValidEnc b) :
    ∃ ps : List (List Nat), foldOut 75 b = List.intersperse [32] ps ∧
      ps.flatten = b ∧
      (∀ p ∈ ps, ValidEnc p ∧ p ≠ [] ∧ p.length ≤ 75) ∧
      (∀ p ∈ ps.dropLast, 72 ≤ p.length) :=
  foldOutF_spec b.length b le_rfl hval

/-- Merging a leading marker with an interleaved chunk list prefixes
every chunk with the continuation octet. -/
theorem mergeFold_sep (ps : List (List Nat)) (h : ps ≠ []) :
    mergeFold ([32] :: List.intersperse [32] ps) = ps.map (32 :: ·) := by
  induction ps with
  | nil => exact absurd rfl h
  | cons p rest ih =>
    cases rest with
    | nil => simp [List.intersperse, mergeFold]
    | cons q rest' =>
      show mergeFold ([32] :: p :: [32] :: List.intersperse [32] (q :: rest')) = _
      rw [mergeFold]
      rw [if_pos rfl]
      rw [ih (by simp)]
      rfl

theorem mergeFold_intersperse_cons (c : List Nat) (cs : List (List Nat))
    (hc : cs ≠ [] → c ≠ [32]) :
    mergeFold (List.intersperse [32] (c :: cs)) = c :: cs.map (32 :: ·) := by
  cases cs with
  | nil => simp [List.intersperse, mergeFold]
  | cons q rest =>
    show mergeFold (c :: [32] :: List.intersperse [32] (q :: rest)) = _
    rw [mergeFold]
    rw [if_neg (hc (by simp))]
    have hne : List.intersperse [32] (q :: rest) ≠ [] := by
      cases rest <;> simp [List.intersperse]
    rw [show ([32] :: List.intersperse [32] (q :: rest)) =
      [32] :: List.intersperse [32] (q :: rest) from rfl]
    rw [mergeFold_sep (q :: rest) (by simp)]

/-- The complete structure of `fold_ical_line` on a string: either no
pieces (empty line) or a head chunk followed by space-prefixed chunks,
which concatenate back to the original bytes. -/
theorem fold_shape (s : String) :
    (fold_ical_line s = [] ∧ bytesOf s = []) ∨
    ∃ c cs, fold_ical_line s = c :: cs.map (32 :: ·) ∧
      (c :: cs).flatten = bytesOf s ∧
      (∀ p ∈ c :: cs, ValidEnc p ∧ p ≠ [] ∧ p.length ≤ 75) ∧
      (∀ p ∈ (c :: cs).dropLast, 72 ≤ p.length) := by
  obtain ⟨ps, hfold, hflat, hall, hlast⟩ :=
    foldOut_spec (bytesOf s) ⟨s.data, rfl⟩
  cases ps with
  | nil =>
    left
    constructor
    · unfold fold_ical_line
      rw [hfold]
      rfl
    · exact hflat.symm
  | cons c cs =>
    right
    refine ⟨c, cs, ?_, hflat, hall, hlast⟩
    unfold fold_ical_line
    rw [hfold]
    exact mergeFold_intersperse_cons c cs fun hne => by
      have h72 : 72 ≤ c.length := by
        apply hlast
        cases cs with
        | nil => exact absurd rfl hne
        | cons q rest => rw [List.dropLast_cons₂]; simp
      intro hcontra
      rw [hcontra] at h72
      simp at h72

/-- Every piece of a folded line is either a continuation (an added
space octet followed by a chunk) or a prefix of the line's bytes. -/
theorem fold_piece (s : String) (p : List Nat) (hp : p ∈ fold_ical_line s) :
    (∃ q, p = 32 :: q) ∨ p <+: bytesOf s := by
  rcases fold_shape s with ⟨hnil, -⟩ | ⟨c, cs, heq, hflat, -, -⟩
  · rw [hnil] at hp
    cases hp
  · rw [heq] at hp
    rcases List.mem_cons.mp hp with rfl | hp'
    · right
      refine ⟨cs.flatten, ?_⟩
      rw [← hflat, List.flatten_cons]
    · left
      obtain ⟨q, -, rfl⟩ := List.mem_map.mp hp'
      exact ⟨q, rfl⟩

/-! ## Escape round trip -/

theorem replace1_nil (o : Char) (new : List Char) : replace1 o new [] = [] := rfl

theorem replace1_cons (o : Char) (new : List Char) (c : Char) (l : List Char) :
    replace1 o new (c :: l) = (if c = o then new else [c]) ++ replace1 o new l := by
  simp [replace1]

theorem escapeChars_nil : escapeChars [] = [] := rfl

theorem escapeChars_cons (c : Char) (l : List Char) :
    escapeChars (c :: l) = escChar c ++ escapeChars l := by
  by_cases h1 : c = '\\'
  · subst h1
    simp [escapeChars, escChar, replace1_cons]
  by_cases h2 : c = ','
  · subst h2
    simp [escapeChars, escChar, replace1_cons, h1]
  by_cases h3 : c = ';'
  · subst h3
    simp [escapeChars, escChar, replace1_cons, h1, h2]
  by_cases h4 : c = '\n'
  · subst h4
    simp [escapeChars, escChar, replace1_cons, h1, h2, h3]
  · simp [escapeChars, escChar, replace1_cons, h1, h2, h3, h4]

theorem unescapeChars_cons_ne (c : Char) (h : c ≠ '\\') (rest : List Char) :
    unescapeChars (c :: rest) = c :: unescapeChars rest := by
  cases rest with
  | nil => simp [unescapeChars, h]
  | cons a b => simp [unescapeChars, h]

theorem unescape_escape_chars (l : List Char) :
    unescapeChars (escapeChars l) = l := by
  induction l with
  | nil => rfl
  | cons c l ih =>
    rw [escapeChars_cons]
    by_cases h1 : c = '\\'
    · subst h1
      simp [escChar, unescapeChars, ih]
    by_cases h2 : c = ','
    · subst h2
      simp [escChar, unescapeChars, ih, h1]
    by_cases h3 : c = ';'
    · subst h3
      simp [escChar, unescapeChars, ih, h1, h2]
    by_cases h4 : c = '\n'
    · subst h4
      simp [escChar, unescapeChars, ih, h1, h2, h3]
    · simp only [escChar, if_neg h1, if_neg h2, if_neg h3, if_neg h4,
        List.singleton_append]
      rw [unescapeChars_cons_ne c h1, ih]

/-! ## Byte toolkit: prefixes and line heads -/

theorem bytesOf_append (s t : String) :
    bytesOf (s ++ t) = bytesOf s ++ bytesOf t := by
  unfold bytesOf
  rw [String.data_append, enc_append]

theorem prefix_getElem? {a l : List Nat} (h : a <+: l) {i : Nat}
    (hi : i < a.length) : l[i]? = a[i]? := by
  obtain ⟨t, rfl⟩ := h
  exact List.getElem?_append_left hi

theorem not_prefix_of_ne {a l : List Nat} (i : Nat) (hi : i < a.length)
    (h : a[i]? ≠ l[i]?) : ¬ a <+: l := by
  intro hp
  exact h (prefix_getElem? hp hi).symm

/-- A property line with a fixed head `F` is never prefixed by a
different fixed tag `P` when the two disagree at some byte of `F`. -/
theorem not_prefix_line (P F : String) (i : Nat) (hi : i < (bytesOf P).length)
    (hiF : i < (bytesOf F).length) (hne : (bytesOf P)[i]? ≠ (bytesOf F)[i]?)
    (x : String) : ¬ bytesOf P <+: bytesOf (F ++ x) := by
  apply not_prefix_of_ne i hi
  rw [bytesOf_append, List.getElem?_append_left hiF]
  exact hne

/-- Lift "no property string starts with tag `P`" through folding: no
physical line starts with `P` either (continuations start with the
added space octet). -/
theorem not_prefix_fold_line (P s : String) (hs : ¬ bytesOf P <+: bytesOf s)
    (hPne : bytesOf P ≠ []) (hP0 : (bytesOf P)[0]? ≠ some 32) :
    ∀ l ∈ fold_ical_line s, ¬ bytesOf P <+: l := by
  intro l hl hpre
  rcases fold_piece s l hl with ⟨q, rfl⟩ | hpre2
  · have hlen : 0 < (bytesOf P).length := List.length_pos.mpr hPne
    have := prefix_getElem? hpre hlen
    simp only [List.getElem?_cons_zero] at this
    exact hP0 this.symm
  · exact hs (hpre.trans hpre2)

theorem not_prefix_eventLines (P tz nm now : String) (r : Row)
    (hPne : bytesOf P ≠ []) (hP0 : (bytesOf P)[0]? ≠ some 32)
    (hprops : ∀ s ∈ eventProps tz nm now r, ¬ bytesOf P <+: bytesOf s) :
    ∀ l ∈ eventLines tz nm now r, ¬ bytesOf P <+: l := by
  intro l hl
  obtain ⟨s, hs, hls⟩ := List.mem_flatMap.mp hl
  exact not_prefix_fold_line P s (hprops s hs) hPne hP0 l hls

/-- Folded pieces of a member property form a contiguous segment of the
emitted lines. -/
theorem flatMap_seg_of_mem {α β : Type} (f : α → List β) {a : α} {l : List α}
    (h : a ∈ l) : ∃ pre post, l.flatMap f = pre ++ f a ++ post := by
  obtain ⟨s, t, rfl⟩ := List.append_of_mem h
  refine ⟨s.flatMap f, t.flatMap f, ?_⟩
  simp [List.flatMap_append, List.flatMap_cons, List.append_assoc]

/-! ## Shapes of the emitted properties -/

theorem dateSegment_shapes (tz : String) (r : Row) (d : Date) :
    ∀ s ∈ dateSegment tz r d,
      (∃ x, s = "DTSTART;VALUE=DATE:" ++ x) ∨
      (∃ x, s = "DTEND;VALUE=DATE:" ++ x) ∨
      (∃ x, s = "DTSTART:" ++ x) ∨ (∃ x, s = "DTEND:" ++ x) := by
  intro s hs
  unfold dateSegment at hs
  split at hs
  · simp only [List.mem_cons, List.not_mem_nil, or_false] at hs
    rcases hs with rfl | rfl
    · exact Or.inl ⟨_, rfl⟩
    · exact Or.inr (Or.inl ⟨_, rfl⟩)
  · split at hs
    · simp only [List.mem_cons, List.not_mem_nil, or_false] at hs
      rcases hs with rfl | rfl
      · exact Or.inr (Or.inr (Or.inl ⟨_, rfl⟩))
      · exact Or.inr (Or.inr (Or.inr ⟨_, rfl⟩))
    · cases hs

/-- A timed row whose end date is present but unparseable emits no
date/time properties at all. -/
theorem dateSegment_empty (tz : String) (r : Row) (d : Date)
    (h1 : isAllDay r = false) (h2 : rowEdate r ≠ "")
    (h3 : _to_date (some (rowEdate r)) = none) :
    dateSegment tz r d = [] := by
  unfold dateSegment
  rw [h1]
  have hend : parse_local_datetime
      (if rowEdate r = "" then r.startDate else some (rowEdate r))
      (some (if rowEtime r ≠ "" then rowEtime r
        else if rowStime r ≠ "" then rowStime r else "00:00")) tz = none := by
    rw [if_neg h2]
    unfold parse_local_datetime
    rw [h3]
  simp only [Bool.false_eq_true, if_false]
  rw [hend]
  cases parse_local_datetime r.startDate (some (rowStime r)) tz <;> rfl

/-- Exhaustive shape analysis of the property strings a row emits. -/
theorem eventProps_mem_cases (tz nm now : String) (r : Row) (s : String)
    (h : s ∈ eventProps tz nm now r) :
    s = "BEGIN:VEVENT" ∨ s = "END:VEVENT" ∨
    (∃ x, s = "UID:" ++ x) ∨ (∃ x, s = "DTSTAMP:" ++ x) ∨
    (∃ x, s = "SUMMARY:" ++ x) ∨ (∃ x, s = "TRANSP:" ++ x) ∨
    (rowLocation r ≠ "" ∧ s = "LOCATION:" ++ ical_escape (rowLocation r)) ∨
    (rowDesc r ≠ "" ∧ s = "DESCRIPTION:" ++ ical_escape (rowDesc r)) ∨
    (rowUrl r ≠ "" ∧ s = "URL:" ++ ical_escape (rowUrl r)) ∨
    (catsList r ≠ [] ∧
      s = "CATEGORIES:" ++ ical_escape (String.intercalate "," (catsList r))) ∨
    s ∈ dateSegment tz r ((_to_date r.startDate).getD ⟨1, 1, 1⟩) := by
  unfold eventProps at h
  split at h
  · cases h
  · split at h
    · cases h
    · rename_i d hd
      rw [hd]
      simp only [Option.getD_some]
      simp only [List.append_assoc, List.mem_append, List.cons_append,
        List.nil_append, List.mem_cons, List.not_mem_nil, or_false] at h
      rcases h with rfl | rfl | rfl | rfl | rfl | h
      · exact Or.inl rfl
      · exact Or.inr (Or.inr (Or.inl ⟨_, rfl⟩))
      · exact Or.inr (Or.inr (Or.inr (Or.inl ⟨_, rfl⟩)))
      · exact Or.inr (Or.inr (Or.inr (Or.inr (Or.inl ⟨_, rfl⟩))))
      · exact Or.inr (Or.inr (Or.inr (Or.inr (Or.inr (Or.inl ⟨_, rfl⟩)))))
      rcases h with h | h
      · split at h
        · simp only [List.mem_singleton] at h
          rename_i hloc
          exact Or.inr (Or.inr (Or.inr (Or.inr (Or.inr (Or.inr
            (Or.inl ⟨hloc, h⟩))))))
        · cases h
      rcases h with h | h
      · split at h
        · simp only [List.mem_singleton] at h
          rename_i hdesc
          exact Or.inr (Or.inr (Or.inr (Or.inr (Or.inr (Or.inr (Or.inr
            (Or.inl ⟨hdesc, h⟩)))))))
        · cases h
      rcases h with h | h
      · split at h
        · simp only [List.mem_singleton] at h
          rename_i hurl
          exact Or.inr (Or.inr (Or.inr (Or.inr (Or.inr (Or.inr (Or.inr
            (Or.inr (Or.inl ⟨hurl, h⟩))))))))
        · cases h
      rcases h with h | h
      · unfold catsSegment at h
        split at h
        · simp only [List.mem_singleton] at h
          rename_i hcats
          exact Or.inr (Or.inr (Or.inr (Or.inr (Or.inr (Or.inr (Or.inr
            (Or.inr (Or.inr (Or.inl ⟨hcats, h⟩)))))))))
        · cases h
      rcases h with h | rfl
      · exact Or.inr (Or.inr (Or.inr (Or.inr (Or.inr (Or.inr (Or.inr
          (Or.inr (Or.inr (Or.inr h)))))))))
      · exact Or.inr (Or.inl rfl)

/-- Unfolding of the emitted properties for a row that passes the
title and start-date filters. -/
theorem eventProps_eq (tz nm now : String) (r : Row) (d : Date)
    (hT : rowTitle r ≠ "") (hD : _to_date r.startDate = some d) :
    eventProps tz nm now r =
    ["BEGIN:VEVENT",
     "UID:" ++ rowUidFinal r nm,
     "DTSTAMP:" ++ now,
     "SUMMARY:" ++ ical_escape (rowTitle r),
     "TRANSP:" ++ if truthy r.transparent then "TRANSPARENT" else "OPAQUE"]
    ++ (if rowLocation r ≠ "" then
          ["LOCATION:" ++ ical_escape (rowLocation r)] else [])
    ++ (if rowDesc r ≠ "" then
          ["DESCRIPTION:" ++ ical_escape (rowDesc r)] else [])
    ++ (if rowUrl r ≠ "" then ["URL:" ++ ical_escape (rowUrl r)] else [])
    ++ catsSegment r ++ dateSegment tz r d ++ ["END:VEVENT"] := by
  unfold eventProps
  rw [if_neg hT, hD]

/-- A row whose start date fails to parse emits nothing. -/
theorem eventProps_nil_of_bad_start (tz nm now : String) (r : Row)
    (hD : _to_date r.startDate = none) : eventProps tz nm now r = [] := by
  unfold eventProps
  split
  · rfl
  · rw [hD]

/-! ## The claims -/

/-- Claim C10: line folding is lossless — keeping the first physical
line, stripping the single leading space from every continuation line
and concatenating recovers exactly the original line's bytes. -/
theorem c10_fold_lossless (s : String) :
    unfoldPieces (fold_ical_line s) = bytesOf s := by
  rcases fold_shape s with ⟨hnil, hempty⟩ | ⟨c, cs, heq, hflat, -, -⟩
  · rw [hnil, hempty]
    rfl
  · rw [heq]
    show c ++ ((cs.map (32 :: ·)).map (·.drop 1)).flatten = bytesOf s
    rw [← hflat, List.flatten_cons, List.map_map]
    congr 1
    have : ((fun l : List Nat => l.drop 1) ∘ (fun q => 32 :: q)) = id := by
      funext q
      rfl
    rw [this, List.map_id]

/-- Claim C7: `ical_escape` escapes backslash, comma, semicolon and
newline, and the inverse unescape operation recovers the original
string exactly, so the escape function is injective. -/
theorem c7_escape_roundtrip :
    (∀ s : String, ical_unescape (ical_escape s) = s) ∧
    Function.Injective ical_escape := by
  have hround : ∀ s : String, ical_unescape (ical_escape s) = s := by
    intro s
    show String.mk (unescapeChars (String.mk (escapeChars s.data)).data) = s
    rw [show (String.mk (escapeChars s.data)).data = escapeChars s.data from rfl,
      unescape_escape_chars]
  exact ⟨hround, fun a b hab => by rw [← hround a, ← hround b, hab]⟩

/-- Counterexample to claim C6: `slugify` does *not* collapse a maximal
run of non-alphanumeric characters to a single separator — each such
character produces its own separator. -/
theorem c6_no_collapse_cex :
    slugify "a!!b" = "a--b" ∧ slugifyClaimed "a!!b" = "a-b" ∧
    slugify "a!!b" ≠ slugifyClaimed "a!!b" :=
  ⟨by decide, by decide, by decide⟩

/-- Claim C6 (amended): the slug mapping is a pure function that
lowercases alphanumerics, maps *each* other character to its own
separator, trims leading and trailing separators and falls back to the
fixed name on an empty result. -/
theorem c6_slugify_amended (s : String) : slugify s = slugifyAmended s := rfl

/-- Counterexample to claim C4: a time in `HH:MM:SS` form keeps its
seconds — `_to_time` does not truncate on the `%H:%M:%S` path. -/
theorem c4_hms_seconds_cex :
    ∃ t, _to_time (some "09:30:45") = some t ∧ t.second ≠ 0 :=
  ⟨⟨9, 30, 45⟩, by decide, by decide⟩

/-- Reduction lemmas for the `Option` monad's bind, as used by the
parsing helpers. -/
theorem some_bindU {α β : Type} (a : α) (f : α → Option β) :
    (some a >>= f) = f a := rfl

theorem none_bindU {α β : Type} (f : α → Option β) :
    ((none : Option α) >>= f) = none := rfl

/-- Seconds of a `%H:%M` parse are zero. -/
theorem parseHM_second (l : List Char) (t : Time) (h : parseHM l = some t) :
    t.second = 0 := by
  unfold parseHM at h
  cases h1 : takeDigits12 l with
  | none =>
    rw [h1, none_bindU] at h
    cases h
  | some p1 =>
    rw [h1, some_bindU] at h
    obtain ⟨hh, r1⟩ := p1
    have h' : (do
        let r2 ← expectChar ':' r1
        let (m, r3) ← takeDigits12 r2
        if r3 = [] ∧ hh ≤ 23 ∧ m ≤ 59 then
          some (⟨hh, m, 0⟩ : Time) else none) = some t := h
    clear h
    cases h2 : expectChar ':' r1 with
    | none =>
      rw [h2, none_bindU] at h'
      cases h'
    | some r2 =>
      rw [h2, some_bindU] at h'
      cases h3 : takeDigits12 r2 with
      | none =>
        rw [h3, none_bindU] at h'
        cases h'
      | some p2 =>
        rw [h3, some_bindU] at h'
        obtain ⟨mm, r3⟩ := p2
        have h'' : (if r3 = [] ∧ hh ≤ 23 ∧ mm ≤ 59 then
            some (⟨hh, mm, 0⟩ : Time) else none) = some t := h'
        split at h''
        · injection h'' with heq
          rw [← heq]
        · cases h''

/-- Claim C4 (amended): every local datetime the pipeline constructs
carries second 0, and time normalization truncates seconds on every
path except the explicit `HH:MM:SS` format, which retains them. -/
theorem c4_seconds_truncation :
    (∀ (d_val t_val : Option String) (tzid : String) (dt : LocalDT),
      parse_local_datetime d_val t_val tzid = some dt → dt.time.second = 0) ∧
    (∀ (v : String) (t : Time), _to_time (some v) = some t →
      parseHMS (pyStrip v) = none → t.second = 0) := by
  constructor
  · intro dv tv tz dt h
    unfold parse_local_datetime at h
    cases hd : _to_date dv with
    | none =>
      rw [hd] at h
      cases h
    | some d =>
      rw [hd] at h
      injection h with h'
      subst h'
      rfl
  · intro v t h hHMS
    have h' : (if v = "" then none
        else (parseHM (pyStrip v)).orElse fun _ =>
          (parseHMS (pyStrip v)).orElse fun _ =>
            (pyFromiso (pyStrip v)).map fun p =>
              (⟨p.2.hour, p.2.minute, 0⟩ : Time)) = some t := h
    clear h
    split at h'
    · cases h'
    · cases hm : parseHM (pyStrip v) with
      | some t' =>
        rw [hm] at h'
        have heq : some t' = some t := h'
        cases heq
        exact parseHM_second _ _ hm
      | none =>
        rw [hm, hHMS] at h'
        have h2 : (pyFromiso (pyStrip v)).map
            (fun p => (⟨p.2.hour, p.2.minute, 0⟩ : Time)) = some t := h'
        obtain ⟨p, -, hp⟩ := Option.map_eq_some'.mp h2
        rw [← hp]

/-- Witness for C4 (amended): a datetime built from an `HH:MM:SS` input
still ends up with second 0. -/
theorem c4_witness :
    parse_local_datetime (some "2025-03-10") (some "09:30:45")
      "Australia/Sydney" =
      some ⟨⟨2025, 3, 10⟩, ⟨9, 30, 0⟩, "Australia/Sydney"⟩ ∧
    (⟨⟨2025, 3, 10⟩, ⟨9, 30, 0⟩, "Australia/Sydney"⟩ : LocalDT).time.second
      = 0 :=
  ⟨by decide, c4_seconds_truncation.1 (some "2025-03-10") (some "09:30:45")
    "Australia/Sydney" _ (by decide)⟩

set_option maxRecDepth 100000 in
/-- Claim C2, evaluated at a failing input: a 140-character calendar
name yields a 153-octet `X-WR-CALNAME` property line whose folding
contains a physical line longer than 75 octets (a continuation line is
one space plus a chunk of up to 75 octets, i.e. up to 76 octets). -/
theorem c2_folded_line_exceeds_75 :
    ∃ l ∈ docLines "Australia/Sydney" nameC2 "20250101T000000Z" [],
      75 < l.length := by
  decide

/-- Claim C8: a row whose start date fails every date parser is
excluded from the rendered document — removing it leaves the document
unchanged, and the remaining rows render normally. -/
theorem c8_bad_start_date_row_dropped (tz nm now : String)
    (pre post : List Row) (r : Row) (hD : _to_date r.startDate = none) :
    docLines tz nm now (pre ++ r :: post) = docLines tz nm now (pre ++ post) := by
  have h1 : (pre ++ r :: post).flatMap (eventProps tz nm now) =
      (pre ++ post).flatMap (eventProps tz nm now) := by
    rw [List.flatMap_append, List.flatMap_append, List.flatMap_cons,
      eventProps_nil_of_bad_start tz nm now r hD]
    simp
  unfold docLines docProps
  rw [h1]

/-- Witness for C8: the `"not-a-date"` row renders like no row at all. -/
theorem c8_witness :
    docLines "Australia/Sydney" "All" "20250101T000000Z" [rowC8] =
    docLines "Australia/Sydney" "All" "20250101T000000Z" [] :=
  c8_bad_start_date_row_dropped "Australia/Sydney" "All" "20250101T000000Z"
    [] [] rowC8 (by decide)

/-- Claim C5: for an all-day event the rendered end date is the day
after the resolved end date, the end date defaulting to the start date
when absent or unparseable. -/
theorem c5_allday_exclusive_end (tz nm now : String) (r : Row) (d : Date)
    (hT : rowTitle r ≠ "") (hD : _to_date r.startDate = some d)
    (hAD : isAllDay r = true) :
    ∃ pre post, eventLines tz nm now r =
      pre ++ fold_ical_line ("DTEND;VALUE=DATE:" ++
        fmt_date (addOneDay ((_to_date (some (rowEdate r))).getD d))) ++ post := by
  unfold eventLines
  apply flatMap_seg_of_mem
  rw [eventProps_eq tz nm now r d hT hD]
  unfold dateSegment
  rw [if_pos hAD]
  simp [List.mem_append]

/-- Witness for C5: start `2025-03-10`, no end date — the rendered end
date is `20250311`. -/
theorem c5_witness :
    ∃ pre post, eventLines "Australia/Sydney" "All" "20250101T000000Z" rowC5 =
      pre ++ fold_ical_line "DTEND;VALUE=DATE:20250311" ++ post := by
  have h := c5_allday_exclusive_end "Australia/Sydney" "All" "20250101T000000Z"
    rowC5 ⟨2025, 3, 10⟩ (by decide) (by decide) (by decide)
  rwa [show ("DTEND;VALUE=DATE:" ++
    fmt_date (addOneDay ((_to_date (some (rowEdate rowC5))).getD ⟨2025, 3, 10⟩)))
    = "DTEND;VALUE=DATE:20250311" from by decide] at h

/-- Claim C9: a rendered event with a non-empty location emits the
location as an additional `CATEGORIES` entry — category and location
joined by a comma (escaped), the location alone when the category is
empty, and no `CATEGORIES` line only when both are empty. -/
theorem c9_categories_line (tz nm now : String) (r : Row) (d : Date)
    (hT : rowTitle r ≠ "") (hD : _to_date r.startDate = some d) :
    (rowCat r ≠ "" → rowLocation r ≠ "" →
      ∃ pre post, eventLines tz nm now r = pre ++
        fold_ical_line ("CATEGORIES:" ++
          ical_escape (rowCat r ++ "," ++ rowLocation r)) ++ post) ∧
    (rowCat r = "" → rowLocation r ≠ "" →
      ∃ pre post, eventLines tz nm now r = pre ++
        fold_ical_line ("CATEGORIES:" ++ ical_escape (rowLocation r)) ++ post) ∧
    (rowCat r = "" → rowLocation r = "" →
      ∀ l ∈ eventLines tz nm now r, ¬ bytesOf "CATEGORIES:" <+: l) := by
  refine ⟨?_, ?_, ?_⟩
  · intro hc hl
    unfold eventLines
    apply flatMap_seg_of_mem
    rw [eventProps_eq tz nm now r d hT hD]
    have hlist : catsList r = [rowCat r, rowLocation r] := by
      unfold catsList
      rw [if_pos hc, if_pos hl]
      rfl
    have hcs : catsSegment r =
        ["CATEGORIES:" ++ ical_escape (rowCat r ++ "," ++ rowLocation r)] := by
      unfold catsSegment
      rw [hlist, if_pos (by simp)]
      rfl
    rw [hcs]
    simp [List.mem_append]
  · intro hc hl
    unfold eventLines
    apply flatMap_seg_of_mem
    rw [eventProps_eq tz nm now r d hT hD]
    have hlist : catsList r = [rowLocation r] := by
      unfold catsList
      rw [if_neg (fun hn => hn hc), if_pos hl]
      rfl
    have hcs : catsSegment r =
        ["CATEGORIES:" ++ ical_escape (rowLocation r)] := by
      unfold catsSegment
      rw [hlist, if_pos (by simp)]
      rfl
    rw [hcs]
    simp [List.mem_append]
  · intro hc hl
    apply not_prefix_eventLines "CATEGORIES:" tz nm now r (by decide) (by decide)
    intro s hs
    have hcatsnil : catsList r = [] := by
      unfold catsList
      rw [if_neg (fun hn => hn hc), if_neg (fun hn => hn hl)]
      rfl
    rcases eventProps_mem_cases tz nm now r s hs with rfl | rfl | ⟨x, rfl⟩ |
      ⟨x, rfl⟩ | ⟨x, rfl⟩ | ⟨x, rfl⟩ | ⟨-, rfl⟩ | ⟨-, rfl⟩ | ⟨-, rfl⟩ |
      ⟨hg, -⟩ | hds
    · decide
    · decide
    · exact not_prefix_line "CATEGORIES:" "UID:" 0 (by decide) (by decide)
        (by decide) x
    · exact not_prefix_line "CATEGORIES:" "DTSTAMP:" 0 (by decide) (by decide)
        (by decide) x
    · exact not_prefix_line "CATEGORIES:" "SUMMARY:" 0 (by decide) (by decide)
        (by decide) x
    · exact not_prefix_line "CATEGORIES:" "TRANSP:" 0 (by decide) (by decide)
        (by decide) _
    · exact not_prefix_line "CATEGORIES:" "LOCATION:" 0 (by decide) (by decide)
        (by decide) _
    · exact not_prefix_line "CATEGORIES:" "DESCRIPTION:" 0 (by decide)
        (by decide) (by decide) _
    · exact not_prefix_line "CATEGORIES:" "URL:" 0 (by decide) (by decide)
        (by decide) _
    · exact absurd hcatsnil hg
    · rcases dateSegment_shapes tz r _ s hds with ⟨x, rfl⟩ | ⟨x, rfl⟩ |
        ⟨x, rfl⟩ | ⟨x, rfl⟩
      · exact not_prefix_line "CATEGORIES:" "DTSTART;VALUE=DATE:" 0 (by decide)
          (by decide) (by decide) x
      · exact not_prefix_line "CATEGORIES:" "DTEND;VALUE=DATE:" 0 (by decide)
          (by decide) (by decide) x
      · exact not_prefix_line "CATEGORIES:" "DTSTART:" 0 (by decide)
          (by decide) (by decide) x
      · exact not_prefix_line "CATEGORIES:" "DTEND:" 0 (by decide) (by decide)
          (by decide) x

/-- Witness for C9: category `Work` and location `Room 5` render the
line `CATEGORIES:Work\,Room 5`. -/
theorem c9_witness :
    ∃ pre post, eventLines "Australia/Sydney" "Work" "20250101T000000Z" rowC9 =
      pre ++ fold_ical_line "CATEGORIES:Work\\,Room 5" ++ post := by
  have h := (c9_categories_line "Australia/Sydney" "Work" "20250101T000000Z"
    rowC9 ⟨2025, 3, 10⟩ (by decide) (by decide)).1 (by decide) (by decide)
  rwa [show ("CATEGORIES:" ++
    ical_escape (rowCat rowC9 ++ "," ++ rowLocation rowC9)) =
    "CATEGORIES:Work\\,Room 5" from by decide] at h

/-- Counterexample to claim C3: there is no "nan"-sentinel filtering in
the renderer — a location cell holding the literal text `"nan"` (which
is what a blank cell's NaN stringifies to) renders the line
`LOCATION:nan` into the output document. -/
theorem c3_nan_location_rendered_cex :
    rowLocation rowC3 = "nan" ∧
    bytesOf "LOCATION:nan" ∈
      docLines "Australia/Sydney" "Work" "20250101T000000Z" [rowC3] :=
  ⟨by decide, by decide⟩

/-- Claim C3 (amended): the `LOCATION`/`DESCRIPTION`/`URL` property
line is absent exactly when the trimmed cell text is empty; a non-empty
value — including the literal text `"nan"` — is rendered escaped. -/
theorem c3_optional_props_iff_nonempty (tz nm now : String) (r : Row) :
    (rowLocation r = "" →
      ∀ l ∈ eventLines tz nm now r, ¬ bytesOf "LOCATION:" <+: l) ∧
    (rowDesc r = "" →
      ∀ l ∈ eventLines tz nm now r, ¬ bytesOf "DESCRIPTION:" <+: l) ∧
    (rowUrl r = "" →
      ∀ l ∈ eventLines tz nm now r, ¬ bytesOf "URL:" <+: l) ∧
    (∀ d, rowTitle r ≠ "" → _to_date r.startDate = some d →
      (rowLocation r ≠ "" → ∃ pre post, eventLines tz nm now r =
        pre ++ fold_ical_line ("LOCATION:" ++ ical_escape (rowLocation r))
          ++ post) ∧
      (rowDesc r ≠ "" → ∃ pre post, eventLines tz nm now r =
        pre ++ fold_ical_line ("DESCRIPTION:" ++ ical_escape (rowDesc r))
          ++ post) ∧
      (rowUrl r ≠ "" → ∃ pre post, eventLines tz nm now r =
        pre ++ fold_ical_line ("URL:" ++ ical_escape (rowUrl r)) ++ post)) := by
  refine ⟨?_, ?_, ?_, ?_⟩
  · intro hloc
    apply not_prefix_eventLines "LOCATION:" tz nm now r (by decide) (by decide)
    intro s hs
    rcases eventProps_mem_cases tz nm now r s hs with rfl | rfl | ⟨x, rfl⟩ |
      ⟨x, rfl⟩ | ⟨x, rfl⟩ | ⟨x, rfl⟩ | ⟨hg, -⟩ | ⟨-, rfl⟩ | ⟨-, rfl⟩ |
      ⟨-, rfl⟩ | hds
    · decide
    · decide
    · exact not_prefix_line "LOCATION:" "UID:" 0 (by decide) (by decide)
        (by decide) x
    · exact not_prefix_line "LOCATION:" "DTSTAMP:" 0 (by decide) (by decide)
        (by decide) x
    · exact not_prefix_line "LOCATION:" "SUMMARY:" 0 (by decide) (by decide)
        (by decide) x
    · exact not_prefix_line "LOCATION:" "TRANSP:" 0 (by decide) (by decide)
        (by decide) _
    · exact absurd hg (fun hn => hn hloc)
    · exact not_prefix_line "LOCATION:" "DESCRIPTION:" 0 (by decide)
        (by decide) (by decide) _
    · exact not_prefix_line "LOCATION:" "URL:" 0 (by decide) (by decide)
        (by decide) _
    · exact not_prefix_line "LOCATION:" "CATEGORIES:" 0 (by decide) (by decide)
        (by decide) _
    · rcases dateSegment_shapes tz r _ s hds with ⟨x, rfl⟩ | ⟨x, rfl⟩ |
        ⟨x, rfl⟩ | ⟨x, rfl⟩
      · exact not_prefix_line "LOCATION:" "DTSTART;VALUE=DATE:" 0 (by decide)
          (by decide) (by decide) x
      · exact not_prefix_line "LOCATION:" "DTEND;VALUE=DATE:" 0 (by decide)
          (by decide) (by decide) x
      · exact not_prefix_line "LOCATION:" "DTSTART:" 0 (by decide) (by decide)
          (by decide) x
      · exact not_prefix_line "LOCATION:" "DTEND:" 0 (by decide) (by decide)
          (by decide) x
  · intro hdesc
    apply not_prefix_eventLines "DESCRIPTION:" tz nm now r (by decide)
      (by decide)
    intro s hs
    rcases eventProps_mem_cases tz nm now r s hs with rfl | rfl | ⟨x, rfl⟩ |
      ⟨x, rfl⟩ | ⟨x, rfl⟩ | ⟨x, rfl⟩ | ⟨-, rfl⟩ | ⟨hg, -⟩ | ⟨-, rfl⟩ |
      ⟨-, rfl⟩ | hds
    · decide
    · decide
    · exact not_prefix_line "DESCRIPTION:" "UID:" 0 (by decide) (by decide)
        (by decide) x
    · exact not_prefix_line "DESCRIPTION:" "DTSTAMP:" 1 (by decide) (by decide)
        (by decide) x
    · exact not_prefix_line "DESCRIPTION:" "SUMMARY:" 0 (by decide) (by decide)
        (by decide) x
    · exact not_prefix_line "DESCRIPTION:" "TRANSP:" 0 (by decide) (by decide)
        (by decide) _
    · exact not_prefix_line "DESCRIPTION:" "LOCATION:" 0 (by decide)
        (by decide) (by decide) _
    · exact absurd hg (fun hn => hn hdesc)
    · exact not_prefix_line "DESCRIPTION:" "URL:" 0 (by decide) (by decide)
        (by decide) _
    · exact not_prefix_line "DESCRIPTION:" "CATEGORIES:" 0 (by decide)
        (by decide) (by decide) _
    · rcases dateSegment_shapes tz r _ s hds with ⟨x, rfl⟩ | ⟨x, rfl⟩ |
        ⟨x, rfl⟩ | ⟨x, rfl⟩
      · exact not_prefix_line "DESCRIPTION:" "DTSTART;VALUE=DATE:" 1
          (by decide) (by decide) (by decide) x
      · exact not_prefix_line "DESCRIPTION:" "DTEND;VALUE=DATE:" 1 (by decide)
          (by decide) (by decide) x
      · exact not_prefix_line "DESCRIPTION:" "DTSTART:" 1 (by decide)
          (by decide) (by decide) x
      · exact not_prefix_line "DESCRIPTION:" "DTEND:" 1 (by decide) (by decide)
          (by decide) x
  · intro hurl
    apply not_prefix_eventLines "URL:" tz nm now r (by decide) (by decide)
    intro s hs
    rcases eventProps_mem_cases tz nm now r s hs with rfl | rfl | ⟨x, rfl⟩ |
      ⟨x, rfl⟩ | ⟨x, rfl⟩ | ⟨x, rfl⟩ | ⟨-, rfl⟩ | ⟨-, rfl⟩ | ⟨hg, -⟩ |
      ⟨-, rfl⟩ | hds
    · decide
    · decide
    · exact not_prefix_line "URL:" "UID:" 1 (by decide) (by decide)
        (by decide) x
    · exact not_prefix_line "URL:" "DTSTAMP:" 0 (by decide) (by decide)
        (by decide) x
    · exact not_prefix_line "URL:" "SUMMARY:" 0 (by decide) (by decide)
        (by decide) x
    · exact not_prefix_line "URL:" "TRANSP:" 0 (by decide) (by decide)
        (by decide) _
    · exact not_prefix_line "URL:" "LOCATION:" 0 (by decide) (by decide)
        (by decide) _
    · exact not_prefix_line "URL:" "DESCRIPTION:" 0 (by decide) (by decide)
        (by decide) _
    · exact absurd hg (fun hn => hn hurl)
    · exact not_prefix_line "URL:" "CATEGORIES:" 0 (by decide) (by decide)
        (by decide) _
    · rcases dateSegment_shapes tz r _ s hds with ⟨x, rfl⟩ | ⟨x, rfl⟩ |
        ⟨x, rfl⟩ | ⟨x, rfl⟩
      · exact not_prefix_line "URL:" "DTSTART;VALUE=DATE:" 0 (by decide)
          (by decide) (by decide) x
      · exact not_prefix_line "URL:" "DTEND;VALUE=DATE:" 0 (by decide)
          (by decide) (by decide) x
      · exact not_prefix_line "URL:" "DTSTART:" 0 (by decide) (by decide)
          (by decide) x
      · exact not_prefix_line "URL:" "DTEND:" 0 (by decide) (by decide)
          (by decide) x
  · intro d hT hD
    refine ⟨?_, ?_, ?_⟩
    · intro hloc
      unfold eventLines
      apply flatMap_seg_of_mem
      rw [eventProps_eq tz nm now r d hT hD, if_pos hloc]
      simp [List.mem_append]
    · intro hdesc
      unfold eventLines
      apply flatMap_seg_of_mem
      rw [eventProps_eq tz nm now r d hT hD, if_pos hdesc]
      simp [List.mem_append]
    · intro hurl
      unfold eventLines
      apply flatMap_seg_of_mem
      rw [eventProps_eq tz nm now r d hT hD, if_pos hurl]
      simp [List.mem_append]

/-- Witness for C3 (amended): a row with location `Room 5` renders a
`LOCATION:Room 5` line. -/
theorem c3_witness :
    ∃ pre post, eventLines "Australia/Sydney" "Work" "20250101T000000Z" rowC3w
      = pre ++ fold_ical_line "LOCATION:Room 5" ++ post := by
  have h := ((c3_optional_props_iff_nonempty "Australia/Sydney" "Work"
    "20250101T000000Z" rowC3w).2.2.2 ⟨2025, 3, 10⟩ (by decide) (by decide)).1
    (by decide)
  rwa [show ("LOCATION:" ++ ical_escape (rowLocation rowC3w)) =
    "LOCATION:Room 5" from by decide] at h

/-- Counterexample to claim C1: a timed row (start time `09:00`) whose
end date fails every parser still emits an event block — `BEGIN:VEVENT`
for that row appears in the rendered document. -/
theorem c1_truncated_block_cex :
    (_to_time (some (rowStime rowC1))).isSome = true ∧
    rowEdate rowC1 ≠ "" ∧ _to_date (some (rowEdate rowC1)) = none ∧
    bytesOf "BEGIN:VEVENT" ∈
      docLines "Australia/Sydney" "Work" "20250101T000000Z" [rowC1] :=
  ⟨by decide, by decide, by decide, by decide⟩

/-- Claim C1 (amended): for a timed row whose end instant is still
unresolved after defaulting, no `DTSTART`/`DTEND` property is emitted,
but the event block itself still appears (opened, given its UID,
summary and other properties, and closed early). -/
theorem c1_unresolved_end_truncated_block (tz nm now : String) (r : Row)
    (d : Date) (hT : rowTitle r ≠ "") (hD : _to_date r.startDate = some d)
    (hAD : isAllDay r = false) (hE : rowEdate r ≠ "")
    (hEP : _to_date (some (rowEdate r)) = none) :
    bytesOf "BEGIN:VEVENT" ∈ eventLines tz nm now r ∧
    bytesOf "END:VEVENT" ∈ eventLines tz nm now r ∧
    (∀ l ∈ eventLines tz nm now r,
      ¬ bytesOf "DTSTART" <+: l ∧ ¬ bytesOf "DTEND" <+: l) := by
  refine ⟨?_, ?_, ?_⟩
  · apply List.mem_flatMap.mpr
    refine ⟨"BEGIN:VEVENT", ?_, by decide⟩
    rw [eventProps_eq tz nm now r d hT hD]
    simp [List.mem_append]
  · apply List.mem_flatMap.mpr
    refine ⟨"END:VEVENT", ?_, by decide⟩
    rw [eventProps_eq tz nm now r d hT hD]
    simp [List.mem_append]
  · intro l hl
    have hseg := dateSegment_empty tz r ((_to_date r.startDate).getD ⟨1, 1, 1⟩)
      hAD hE hEP
    constructor
    · refine not_prefix_eventLines "DTSTART" tz nm now r (by decide)
        (by decide) ?_ l hl
      intro s hs
      rcases eventProps_mem_cases tz nm now r s hs with rfl | rfl | ⟨x, rfl⟩ |
        ⟨x, rfl⟩ | ⟨x, rfl⟩ | ⟨x, rfl⟩ | ⟨-, rfl⟩ | ⟨-, rfl⟩ | ⟨-, rfl⟩ |
        ⟨-, rfl⟩ | hds
      · decide
      · decide
      · exact not_prefix_line "DTSTART" "UID:" 0 (by decide) (by decide)
          (by decide) x
      · exact not_prefix_line "DTSTART" "DTSTAMP:" 5 (by decide) (by decide)
          (by decide) x
      · exact not_prefix_line "DTSTART" "SUMMARY:" 0 (by decide) (by decide)
          (by decide) x
      · exact not_prefix_line "DTSTART" "TRANSP:" 0 (by decide) (by decide)
          (by decide) _
      · exact not_prefix_line "DTSTART" "LOCATION:" 0 (by decide) (by decide)
          (by decide) _
      · exact not_prefix_line "DTSTART" "DESCRIPTION:" 1 (by decide)
          (by decide) (by decide) _
      · exact not_prefix_line "DTSTART" "URL:" 0 (by decide) (by decide)
          (by decide) _
      · exact not_prefix_line "DTSTART" "CATEGORIES:" 0 (by decide) (by decide)
          (by decide) _
      · rw [hseg] at hds
        cases hds
    · refine not_prefix_eventLines "DTEND" tz nm now r (by decide)
        (by decide) ?_ l hl
      intro s hs
      rcases eventProps_mem_cases tz nm now r s hs with rfl | rfl | ⟨x, rfl⟩ |
        ⟨x, rfl⟩ | ⟨x, rfl⟩ | ⟨x, rfl⟩ | ⟨-, rfl⟩ | ⟨-, rfl⟩ | ⟨-, rfl⟩ |
        ⟨-, rfl⟩ | hds
      · decide
      · decide
      · exact not_prefix_line "DTEND" "UID:" 0 (by decide) (by decide)
          (by decide) x
      · exact not_prefix_line "DTEND" "DTSTAMP:" 2 (by decide) (by decide)
          (by decide) x
      · exact not_prefix_line "DTEND" "SUMMARY:" 0 (by decide) (by decide)
          (by decide) x
      · exact not_prefix_line "DTEND" "TRANSP:" 0 (by decide) (by decide)
          (by decide) _
      · exact not_prefix_line "DTEND" "LOCATION:" 0 (by decide) (by decide)
          (by decide) _
      · exact not_prefix_line "DTEND" "DESCRIPTION:" 1 (by decide) (by decide)
          (by decide) _
      · exact not_prefix_line "DTEND" "URL:" 0 (by decide) (by decide)
          (by decide) _
      · exact not_prefix_line "DTEND" "CATEGORIES:" 0 (by decide) (by decide)
          (by decide) _
      · rw [hseg] at hds
        cases hds

/-- Witness for C1 (amended): the `rowC1` block appears, is closed, and
contains no `DTSTART`/`DTEND` line. -/
theorem c1_witness :
    bytesOf "BEGIN:VEVENT" ∈
      eventLines "Australia/Sydney" "Work" "20250101T000000Z" rowC1 ∧
    bytesOf "END:VEVENT" ∈
      eventLines "Australia/Sydney" "Work" "20250101T000000Z" rowC1 ∧
    (∀ l ∈ eventLines "Australia/Sydney" "Work" "20250101T000000Z" rowC1,
      ¬ bytesOf "DTSTART" <+: l ∧ ¬ bytesOf "DTEND" <+: l) :=
  c1_unresolved_end_truncated_block "Australia/Sydney" "Work"
    "20250101T000000Z" rowC1 ⟨2025, 3, 10⟩ (by decide) (by decide) (by decide)
    (by decide) (by decide)

end Cal
